import Mathlib

/-!
Verification development for the Smartbites dashboard aggregation pipeline
(`streamlit_app.py`).  The computational core is shallowly embedded: a table
is a list of typed records, pandas floating-point results are modelled by
`PFloat` (a rational number, NaN, or a signed infinity), and each aggregation
function of the source is translated into an executable Lean definition.
-/

/-- Model of a pandas float cell value: a finite rational, NaN, or a signed
infinity.  `inf true` is +∞, `inf false` is -∞.  (Real float rounding error is
not modelled; the repository only adds, counts and divides exact inputs.) -/
inductive PFloat where
  | val (q : ℚ)
  | nan
  | inf (pos : Bool)
deriving DecidableEq, Repr

/-- Pandas division `a / b` on floats: division by zero yields NaN for `0/0`
and a signed infinity otherwise, mirroring numpy semantics. -/
def fdiv (a b : ℚ) : PFloat :=
  if b = 0 then (if a = 0 then PFloat.nan else PFloat.inf (decide (0 < a)))
  else PFloat.val (a / b)

/-- Multiplication of a pandas float by a rational constant. -/
def pmul (x : PFloat) (c : ℚ) : PFloat :=
  match x with
  | PFloat.val q => PFloat.val (q * c)
  | PFloat.nan => PFloat.nan
  | PFloat.inf s => if c = 0 then PFloat.nan else if 0 < c then PFloat.inf s else PFloat.inf (!s)

/-- Rounding to 2 decimal places, as in `.round(2)`.  (numpy rounds ties to
even; we use round-half-away ties via `round`.  No claim proved here depends
on tie behaviour, only on the `≤ 1/200` rounding error bound.) -/
def round2 (q : ℚ) : ℚ := ((round (q * 100) : ℤ) : ℚ) / 100

/-- `.round(2)` on a pandas float: NaN and infinities are preserved. -/
def pround2 (x : PFloat) : PFloat :=
  match x with
  | PFloat.val q => PFloat.val (round2 q)
  | x => x

/-- `.fillna(0)`: replaces NaN by 0; infinities are not null and survive. -/
def fillna0 (x : PFloat) : PFloat :=
  match x with
  | PFloat.nan => PFloat.val 0
  | x => x

/-- pandas `Series.mean()`: sum divided by count; NaN on an empty series. -/
def smean (l : List ℚ) : PFloat := fdiv l.sum l.length

/-- One normalized order record (the canonical post-load schema of the
source's `load_data`).  Numeric columns have been coerced, so they are plain
rationals; `status` and `delivery_status` values may be null. -/
structure Row where
  ordernumber : String
  customerid : String
  customer : String
  company : String
  vendors : String
  total_revenue : ℚ
  gm_1 : ℚ
  gm_2 : ℚ
  discount : ℚ
  refund_amount : ℚ
  deliveryfee : ℚ
  vendor_delivery_fee : ℚ
  smartlogistics_cost : ℚ
  commission_in_currency : ℚ
  totalitems : ℚ
  status : Option String
  delivery_status : Option String
deriving DecidableEq, Repr

/-- A normalized table: its rows plus flags recording whether the optional
`status` / `delivery_status` columns exist (the source checks
`'status' in df.columns` and `'delivery_status' in df.columns`). -/
structure Table where
  rows : List Row
  hasStatus : Bool
  hasDeliveryStatus : Bool
deriving DecidableEq

/-- Grand total revenue `df['total_revenue'].sum()`. -/
def grandTotal (t : Table) : ℚ := (t.rows.map (·.total_revenue)).sum

/-- Code-point comparison of two characters, as Python compares string
characters. -/
def charLtB (a b : Char) : Bool := a.val < b.val

/-- Lexicographic (code-point) strict comparison of two character lists:
exactly Python's `<` on strings, which pandas uses to sort group labels. -/
def strLtB : List Char → List Char → Bool
  | [], [] => false
  | [], _ :: _ => true
  | _ :: _, [] => false
  | x :: xs, y :: ys =>
    if charLtB x y then true else if charLtB y x then false else strLtB xs ys

/-- Python's `<=` on strings (lexicographic by code point). -/
def pyLe (a b : String) : Bool := !(strLtB b.data a.data)

/-- Lexicographic strict comparison of `(company, customerid, customer)`
triples: Python tuple comparison, which pandas uses to sort composite group
keys. -/
def key3Lt (a b : String × String × String) : Bool :=
  strLtB a.1.data b.1.data ||
    (a.1 = b.1 &&
      (strLtB a.2.1.data b.2.1.data ||
        (a.2.1 = b.2.1 && strLtB a.2.2.data b.2.2.data)))

/-- Non-strict tuple comparison for the composite key. -/
def key3Le (a b : String × String × String) : Bool := !(key3Lt b a)

/-- pandas `groupby` with its default `sort=True`: the distinct keys in
ascending order, each paired with the sublist of elements having that key. -/
def groupby {α κ : Type} [DecidableEq κ] (r : κ → κ → Prop) [DecidableRel r]
    (key : α → κ) (xs : List α) : List (κ × List α) :=
  (List.insertionSort r (xs.map key).dedup).map
    (fun k => (k, xs.filter (fun x => decide (key x = k))))

/-- Result record of `calculate_overall_metrics`. -/
structure OverallMetrics where
  total_orders : ℕ
  unique_customers : ℕ
  unique_companies : ℕ
  unique_vendors : ℕ
  total_revenue : ℚ
  avg_revenue_per_order : PFloat
  total_gm1 : ℚ
  total_gm2 : ℚ
  avg_gm1_per_order : PFloat
  total_discounts : ℚ
  total_refunds : ℚ
deriving DecidableEq, Repr

/-- `calculate_overall_metrics` (source lines 91-105): row count, nunique
counts, column sums and two unguarded pandas means. -/
def calculate_overall_metrics (t : Table) : OverallMetrics :=
  { total_orders := t.rows.length
    unique_customers := (t.rows.map (·.customerid)).dedup.length
    unique_companies := (t.rows.map (·.company)).dedup.length
    unique_vendors := (t.rows.map (·.vendors)).dedup.length
    total_revenue := (t.rows.map (·.total_revenue)).sum
    avg_revenue_per_order := smean (t.rows.map (·.total_revenue))
    total_gm1 := (t.rows.map (·.gm_1)).sum
    total_gm2 := (t.rows.map (·.gm_2)).sum
    avg_gm1_per_order := smean (t.rows.map (·.gm_1))
    total_discounts := (t.rows.map (·.discount)).sum
    total_refunds := (t.rows.map (·.refund_amount)).sum }

/-- Key extraction for the concentration grouping: the
`(company, customerid, customer)` composite key. -/
def concKey (r : Row) : String × String × String := (r.company, r.customerid, r.customer)

/-- One output row of `calculate_customer_concentration`. -/
structure ConcRow where
  company : String
  customerid : String
  customer : String
  order_count : ℕ
  total_revenue : ℚ
  gm_1 : ℚ
  pct_of_total_revenue : PFloat
  avg_order_value : PFloat
deriving DecidableEq, Repr

/-- The concentration table before the final revenue sort and `head(20)`
(source lines 109-118): one row per `(company, customerid, customer)` group
with count, sums, percentage of grand-total revenue and average order value,
both rounded to 2 decimals. -/
def concentrationRows (t : Table) : List ConcRow :=
  (groupby (fun a b => key3Le a b = true) concKey t.rows).map (fun g =>
    let rev := (g.2.map (·.total_revenue)).sum
    { company := g.1.1
      customerid := g.1.2.1
      customer := g.1.2.2
      order_count := g.2.length
      total_revenue := rev
      gm_1 := (g.2.map (·.gm_1)).sum
      pct_of_total_revenue := pround2 (pmul (fdiv rev (grandTotal t)) 100)
      avg_order_value := pround2 (fdiv rev g.2.length) })

/-- `calculate_customer_concentration` (source lines 107-120): the grouped
table sorted by revenue descending, truncated to the top 20 groups. -/
def calculate_customer_concentration (t : Table) : List ConcRow :=
  (List.insertionSort (fun a b : ConcRow => b.total_revenue ≤ a.total_revenue)
    (concentrationRows t)).take 20

/-- One row of the stage-1 per-customer aggregation of
`calculate_repeat_behavior` (`customer_orders` in the source). -/
structure CustRow where
  customerid : String
  order_count : ℕ
  total_revenue : ℚ
  gm_1 : ℚ
deriving DecidableEq, Repr

/-- Stage 1 of `calculate_repeat_behavior` (source lines 124-128): group by
`customerid` with order count, revenue sum and margin sum. -/
def customerOrders (t : Table) : List CustRow :=
  (groupby (fun a b => pyLe a b = true) (fun r : Row => r.customerid) t.rows).map (fun g =>
    { customerid := g.1
      order_count := g.2.length
      total_revenue := (g.2.map (·.total_revenue)).sum
      gm_1 := (g.2.map (·.gm_1)).sum })

/-- `segment_customer` (source lines 130-140): the five repeat-behavior bins
keyed on a customer's order count. -/
def segment_customer (order_count : ℕ) : String :=
  if order_count = 1 then "1 - One-time"
  else if order_count ≤ 5 then "2-5 - Low Repeat"
  else if order_count ≤ 10 then "6-10 - Medium Repeat"
  else if order_count ≤ 20 then "11-20 - High Repeat"
  else "21+ - Very High Repeat"

/-- One output row of `calculate_repeat_behavior`. -/
structure RepeatRow where
  segment : String
  customer_count : ℕ
  order_count : ℕ
  total_revenue : ℚ
  gm_1 : ℚ
  avg_revenue_per_customer : PFloat
deriving DecidableEq, Repr

/-- `calculate_repeat_behavior` (source lines 122-153): stage-2/3 grouping of
the per-customer table by segment label (pandas sorts the string labels
ascending), with the derived per-customer revenue average. -/
def calculate_repeat_behavior (t : Table) : List RepeatRow :=
  (groupby (fun a b => pyLe a b = true) (fun c : CustRow => segment_customer c.order_count)
      (customerOrders t)).map (fun g =>
    { segment := g.1
      customer_count := g.2.length
      order_count := (g.2.map (·.order_count)).sum
      total_revenue := (g.2.map (·.total_revenue)).sum
      gm_1 := (g.2.map (·.gm_1)).sum
      avg_revenue_per_customer :=
        pround2 (fdiv (g.2.map (·.total_revenue)).sum g.2.length) })

/-- One output row of `calculate_vendor_performance`. -/
structure VendorRow where
  vendors : String
  order_count : ℕ
  total_revenue : ℚ
  gm_1 : ℚ
  commission_in_currency : ℚ
  refund_count : ℕ
  avg_revenue_per_order : PFloat
  margin_pct : PFloat
  late_deliveries : ℕ
deriving DecidableEq, Repr

/-- `calculate_vendor_performance` (source lines 155-178): per-vendor counts,
sums, derived averages and margin percentage.  When the `delivery_status`
column exists, the source merges the per-vendor count of `red` rows and then
applies `.fillna(0)` to the whole frame - which also replaces a NaN
`margin_pct` (a 0/0 group) by 0; infinities are not null and survive.
Without the column, `late_deliveries` is uniformly 0 and no fillna runs. -/
def calculate_vendor_performance (t : Table) : List VendorRow :=
  let base := (groupby (fun a b => pyLe a b = true) (fun r : Row => r.vendors) t.rows).map (fun g =>
    let rev := (g.2.map (·.total_revenue)).sum
    let gm := (g.2.map (·.gm_1)).sum
    let avg := pround2 (fdiv rev g.2.length)
    let mp := pround2 (pmul (fdiv gm rev) 100)
    { vendors := g.1
      order_count := g.2.length
      total_revenue := rev
      gm_1 := gm
      commission_in_currency := (g.2.map (·.commission_in_currency)).sum
      refund_count := (g.2.filter (fun r => decide (0 < r.refund_amount))).length
      avg_revenue_per_order := if t.hasDeliveryStatus then fillna0 avg else avg
      margin_pct := if t.hasDeliveryStatus then fillna0 mp else mp
      late_deliveries :=
        if t.hasDeliveryStatus then
          (g.2.filter (fun r => decide (r.delivery_status = some "red"))).length
        else 0 : VendorRow })
  (List.insertionSort (fun a b : VendorRow => b.total_revenue ≤ a.total_revenue) base).take 20

/-- `segment_order` (source lines 182-194): the six order-size bins keyed on
an order's total revenue, with strict upper bounds. -/
def segment_order (revenue : ℚ) : String :=
  if revenue < 50 then "1. < 50 (Micro)"
  else if revenue < 150 then "2. 50-150 (Small)"
  else if revenue < 300 then "3. 150-300 (Medium)"
  else if revenue < 500 then "4. 300-500 (Large)"
  else if revenue < 1000 then "5. 500-1000 (V.Large)"
  else "6. 1000+ (Enterprise)"

/-- One output row of `calculate_order_size_segments`. -/
structure SegRow where
  order_segment : String
  order_count : ℕ
  total_revenue : ℚ
  gm_1 : ℚ
  totalitems : PFloat
  avg_revenue : PFloat
  margin_pct : PFloat
deriving DecidableEq, Repr

/-- The grouped segment table of `calculate_order_size_segments` (source
lines 198-206): grouping on the derived `order_segment` column, whose value
for each row is `segment_order` of its revenue. -/
def orderSizeBody (rows : List Row) : List SegRow :=
  (groupby (fun a b => pyLe a b = true)
      (fun r : Row => segment_order r.total_revenue) rows).map (fun g =>
    let rev := (g.2.map (·.total_revenue)).sum
    let gm := (g.2.map (·.gm_1)).sum
    { order_segment := g.1
      order_count := g.2.length
      total_revenue := rev
      gm_1 := gm
      totalitems := smean (g.2.map (·.totalitems))
      avg_revenue := pround2 (fdiv rev g.2.length)
      margin_pct := pround2 (pmul (fdiv gm rev) 100) })

/-- `calculate_order_size_segments` (source lines 180-208): the grouped table
with the final `.sort_values('order_segment')` (a re-sort of the already
label-sorted groups). -/
def calculate_order_size_segments (rows : List Row) : List SegRow :=
  List.insertionSort (fun a b : SegRow => pyLe a.order_segment b.order_segment = true)
    (orderSizeBody rows)

/-- Result record of `calculate_operational_risk`. -/
structure OpsRisk where
  total_orders : ℕ
  orders_with_refunds : ℕ
  refund_rate_pct : ℚ
  total_refund_amount : ℚ
  late_deliveries : ℕ
  late_delivery_rate_pct : ℚ
  on_time_deliveries : ℕ
deriving DecidableEq, Repr

/-- `calculate_operational_risk` (source lines 219-240): refund and late
delivery counts and their zero-guarded percentage rates; when the
`delivery_status` column is absent both delivery counts default to 0. -/
def calculate_operational_risk (t : Table) : OpsRisk :=
  let total_orders := t.rows.length
  let owr := (t.rows.filter (fun r => decide (0 < r.refund_amount))).length
  let late := if t.hasDeliveryStatus then
      (t.rows.filter (fun r => decide (r.delivery_status = some "red"))).length
    else 0
  let ontime := if t.hasDeliveryStatus then
      (t.rows.filter (fun r => decide (r.delivery_status = some "green"))).length
    else 0
  { total_orders := total_orders
    orders_with_refunds := owr
    refund_rate_pct :=
      if 0 < total_orders then round2 ((owr : ℚ) / (total_orders : ℚ) * 100) else 0
    total_refund_amount := (t.rows.map (·.refund_amount)).sum
    late_deliveries := late
    late_delivery_rate_pct :=
      if 0 < total_orders then round2 ((late : ℚ) / (total_orders : ℚ) * 100) else 0
    on_time_deliveries := ontime }

/-- A raw spreadsheet cell as read by `pd.read_excel`: a number, a string, or
a null/NA value. -/
inductive Cell where
  | num (q : ℚ)
  | str (s : String)
  | null
deriving DecidableEq, Repr

/-- A raw table as loaded from the spreadsheet: a list of column names and
rows of cells positionally aligned with the columns. -/
structure RawTable where
  cols : List String
  rows : List (List Cell)
deriving DecidableEq, Repr

/-- First-match association-list lookup, modelling a Python dict lookup and
`DataFrame.rename`'s per-column mapping. -/
def lookupFirst {β : Type} [DecidableEq β] (k : β) : List (β × β) → Option β
  | [] => none
  | p :: ps => if k = p.1 then some p.2 else lookupFirst k ps

/-- The uppercase-to-lowercase letter pairs, modelling `str.lower()` on the
ASCII letters that occur in column names. -/
def lowPairs : List (Char × Char) :=
  [('A', 'a'), ('B', 'b'), ('C', 'c'), ('D', 'd'), ('E', 'e'), ('F', 'f'),
   ('G', 'g'), ('H', 'h'), ('I', 'i'), ('J', 'j'), ('K', 'k'), ('L', 'l'),
   ('M', 'm'), ('N', 'n'), ('O', 'o'), ('P', 'p'), ('Q', 'q'), ('R', 'r'),
   ('S', 's'), ('T', 't'), ('U', 'u'), ('V', 'v'), ('W', 'w'), ('X', 'x'),
   ('Y', 'y'), ('Z', 'z')]

/-- Lower-casing of a single character (identity on non-uppercase input). -/
def lowChar (c : Char) : Char := (lookupFirst c lowPairs).getD c

/-- Whitespace test used by `str.strip()`. -/
def isWS (c : Char) : Bool := c = ' ' || c = '\t' || c = '\n' || c = '\r'

/-- `str.strip()` on a character list: drop whitespace from both ends. -/
def stripChars (l : List Char) : List Char :=
  ((l.dropWhile isWS).reverse.dropWhile isWS).reverse

/-- `str.replace(' ', '_')` on one character. -/
def replChar (c : Char) : Char := if c = ' ' then '_' else c

/-- The column-name fallback normalization of source line 74:
`.str.lower().str.strip().str.replace(' ', '_')`. -/
def cleanChars (l : List Char) : List Char :=
  (stripChars (l.map lowChar)).map replChar

/-- String form of `cleanChars`. -/
def cleanName (s : String) : String := String.mk (cleanChars s.data)

/-- The explicit rename mapping of source lines 50-68. -/
def column_mapping : List (String × String) :=
  [("OrderNumber", "ordernumber"), ("CustomerID", "customerid"),
   ("Customer", "customer"), ("Company", "company"), ("Vendors", "vendors"),
   ("Total_Revenue", "total_revenue"), ("GM1", "gm_1"), ("GM2", "gm_2"),
   ("Discount", "discount"), ("Refund_Amount", "refund_amount"),
   ("DeliveryFee", "deliveryfee"), ("Vendor_Delivery_Fee", "vendor_delivery_fee"),
   ("SmartLogistics_Cost", "smartlogistics_cost"),
   ("Commission_in_Currency", "commission_in_currency"),
   ("TotalItems", "totalitems"), ("Status", "status"),
   ("Delivery_Status", "delivery_status")]

/-- `df.rename(columns=column_mapping)` on one column name. -/
def applyMapping (s : String) : String := (lookupFirst s column_mapping).getD s

/-- Full normalization of one column name: the rename mapping of line 71
followed by the lowercase/strip/replace fallback of line 74. -/
def normalizeColName (s : String) : String := cleanName (applyMapping s)

/-- The numeric columns coerced by source lines 81-87. -/
def numeric_cols : List String :=
  ["total_revenue", "gm_1", "gm_2", "discount", "refund_amount",
   "deliveryfee", "vendor_delivery_fee", "smartlogistics_cost",
   "commission_in_currency", "totalitems"]

/-- A digit's numeric value. -/
def digitVal (c : Char) : Option ℕ :=
  if '0' ≤ c ∧ c ≤ '9' then some (c.toNat - '0'.toNat) else none

/-- Parse a nonempty digit string as a natural number. -/
def parseNat (l : List Char) : Option ℕ :=
  if l = [] then none
  else l.foldl (fun acc c => acc.bind (fun n => (digitVal c).map (fun d => 10 * n + d)))
    (some 0)

/-- Model of `pd.to_numeric(..., errors='coerce')` applied to a string:
an optional leading minus sign, digits, and an optional decimal part.
Strings outside this grammar coerce to NA (the claims proved here do not
depend on the exact accepted grammar, only on numbers parsing to numbers). -/
def parseNum (s : String) : Option ℚ :=
  let core (t : String) : Option ℚ :=
    match t.splitOn "." with
    | [a] => (parseNat a.data).map (fun n => (n : ℚ))
    | [a, b] =>
      match parseNat a.data, parseNat b.data with
      | some n, some m => some ((n : ℚ) + (m : ℚ) / (10 : ℚ) ^ b.length)
      | _, _ => none
    | _ => none
  if s.startsWith "-" then (core (s.drop 1)).map Neg.neg else core s

/-- `pd.to_numeric(col, errors='coerce').fillna(0)` on one cell: numbers pass
through, strings parse or become 0, nulls become 0. -/
def coerceCell (c : Cell) : Cell :=
  match c with
  | Cell.num q => Cell.num q
  | Cell.str s => Cell.num ((parseNum s).getD 0)
  | Cell.null => Cell.num 0

/-- Numeric coercion of one row: cells in columns listed in `numeric_cols`
are coerced, others are untouched. -/
def coerceRow (cols : List String) (r : List Cell) : List Cell :=
  List.zipWith (fun c x => if numeric_cols.contains c then coerceCell x else x) cols r

/-- Index of the first column with the given name, modelling `df[name]`
column selection. -/
def findColIdx (name : String) : List String → Option ℕ
  | [] => none
  | c :: cs => if c = name then some 0 else (findColIdx name cs).map (· + 1)

/-- Does this cell's value lie in the given string list?  Models
`Series.isin(values)`: NA and numbers never match a string list entry. -/
def cellIn (c : Cell) (vals : List String) : Bool :=
  match c with
  | Cell.str s => vals.contains s
  | _ => false

/-- The status cell of a row, given the (normalized) column list; null when
there is no `status` column or the row is too short. -/
def statusCell (cols : List String) (r : List Cell) : Cell :=
  match findColIdx "status" cols with
  | none => Cell.null
  | some i => r.getD i Cell.null

/-- The status filter of source lines 77-78:
`df = df[~df['status'].isin(['cancelled', 'rejected'])]` applied only when a
`status` column exists. -/
def statusFilterRows (cols : List String) (rows : List (List Cell)) : List (List Cell) :=
  match findColIdx "status" cols with
  | none => rows
  | some i => rows.filter (fun r => !(cellIn (r.getD i Cell.null) ["cancelled", "rejected"]))

/-- The normalization steps of `load_data` (source lines 45-89) after the
spreadsheet read: column renaming and name cleanup, the status filter, and
numeric coercion. -/
def normalizeRaw (t : RawTable) : RawTable :=
  { cols := t.cols.map normalizeColName
    rows := (statusFilterRows (t.cols.map normalizeColName) t.rows).map
      (coerceRow (t.cols.map normalizeColName)) }

/-- A Python-side DataFrame object: the normalized rows plus any derived
columns later assigned onto the same shared object (name and per-row
values).  Used to model in-place column assignment. -/
structure DfObj where
  rows : List Row
  extra : List (String × List String)
deriving DecidableEq, Repr

/-- `df[name] = vals` on a DataFrame object: overwrites the column if
present, otherwise appends it - an in-place mutation of the shared object. -/
def setCol (d : DfObj) (name : String) (vals : List String) : DfObj :=
  if (d.extra.map Prod.fst).contains name then
    { d with extra := d.extra.map (fun p => if p.1 = name then (name, vals) else p) }
  else
    { d with extra := d.extra ++ [(name, vals)] }

/-- `calculate_order_size_segments` with its state effect on the caller's
DataFrame (source line 196 assigns the derived `order_segment` column onto
the argument `df` itself before grouping): returns the segment table and the
caller's DataFrame object as it is after the call. -/
def run_order_size_segments (d : DfObj) : List SegRow × DfObj :=
  let d2 := setCol d "order_segment" (d.rows.map (fun r => segment_order r.total_revenue))
  (calculate_order_size_segments d2.rows, d2)

/-- A base order row used by the concrete example tables below. -/
def baseRow : Row :=
  { ordernumber := "o1", customerid := "a", customer := "a", company := "X",
    vendors := "V", total_revenue := 0, gm_1 := 0, gm_2 := 0, discount := 0,
    refund_amount := 0, deliveryfee := 0, vendor_delivery_fee := 0,
    smartlogistics_cost := 0, commission_in_currency := 0, totalitems := 0,
    status := none, delivery_status := none }

/-- The empty normalized table. -/
def emptyTbl : Table := { rows := [], hasStatus := false, hasDeliveryStatus := false }

/-- Example table: one customer with 2 orders and one with 11 orders. -/
def repeatTbl : Table :=
  { rows := List.replicate 2 baseRow
      ++ List.replicate 11 { baseRow with customerid := "b", customer := "b" }
    hasStatus := false, hasDeliveryStatus := false }

/-- Example table with a single zero-revenue, positive-margin vendor group. -/
def vendorTbl : Table :=
  { rows := [{ baseRow with gm_1 := 5 }], hasStatus := false, hasDeliveryStatus := false }

/-- The single output row `calculate_vendor_performance` produces on
`vendorTbl`. -/
def vendorRow0 : VendorRow :=
  { vendors := "V", order_count := 1, total_revenue := 0, gm_1 := 5,
    commission_in_currency := 0, refund_count := 0,
    avg_revenue_per_order := PFloat.val 0, margin_pct := PFloat.inf true,
    late_deliveries := 0 }

/-- Example table matching the spec's worked example: customer `a` with
orders of revenue 100 and 50, customer `b` with one order of revenue 850. -/
def concTbl : Table :=
  { rows := [{ baseRow with total_revenue := 100, gm_1 := 10 },
             { baseRow with ordernumber := "o2", total_revenue := 50, gm_1 := 5 },
             { baseRow with ordernumber := "o3", customerid := "b", customer := "b",
                            company := "Y", vendors := "W",
                            total_revenue := 850, gm_1 := 50 }]
    hasStatus := false, hasDeliveryStatus := false }

/-- A DataFrame object with no derived columns, as handed to the pipeline. -/
def dfShared : DfObj := { rows := [{ baseRow with total_revenue := 100 }], extra := [] }

/-- Example raw table for the loader. -/
def exRaw : RawTable :=
  { cols := ["Status", "Total_Revenue", " My Col "]
    rows := [[Cell.str "ok", Cell.str "12.5", Cell.null],
             [Cell.str "cancelled", Cell.null, Cell.num 3]] }

/-- Example raw table with a status column and one retained row. -/
def exRawOk : RawTable :=
  { cols := ["Status"], rows := [[Cell.str "ok"]] }

/-- Example raw table without any status column. -/
def exRawNoStatus : RawTable :=
  { cols := ["Total_Revenue"], rows := [[Cell.str "5"], [Cell.null]] }

/-- Table without the delivery_status column, with one red-valued cell that
must be ignored because the column itself is absent. -/
def noDsTbl : Table :=
  { rows := [{ baseRow with delivery_status := some "red" }]
    hasStatus := false, hasDeliveryStatus := false }

/-- Modelled from the spec: the severity rank of the five repeat segments,
one-time < low repeat < medium repeat < high repeat < very high repeat. -/
def severityRank (s : String) : ℕ :=
  if s = "1 - One-time" then 0
  else if s = "2-5 - Low Repeat" then 1
  else if s = "6-10 - Medium Repeat" then 2
  else if s = "11-20 - High Repeat" then 3
  else 4

/-- Statement of the repeat-bin partition: each of the five labels is
assigned exactly on its claimed order-count range. -/
def RepeatBinsPartition (n : ℕ) : Prop :=
  (segment_customer n = "1 - One-time" ↔ n = 1) ∧
  (segment_customer n = "2-5 - Low Repeat" ↔ 2 ≤ n ∧ n ≤ 5) ∧
  (segment_customer n = "6-10 - Medium Repeat" ↔ 6 ≤ n ∧ n ≤ 10) ∧
  (segment_customer n = "11-20 - High Repeat" ↔ 11 ≤ n ∧ n ≤ 20) ∧
  (segment_customer n = "21+ - Very High Repeat" ↔ 21 ≤ n)

/-- Statement of the order-size bin partition: each of the six labels is
assigned exactly on its claimed half-open revenue interval. -/
def OrderBinsPartition (q : ℚ) : Prop :=
  (segment_order q = "1. < 50 (Micro)" ↔ q < 50) ∧
  (segment_order q = "2. 50-150 (Small)" ↔ 50 ≤ q ∧ q < 150) ∧
  (segment_order q = "3. 150-300 (Medium)" ↔ 150 ≤ q ∧ q < 300) ∧
  (segment_order q = "4. 300-500 (Large)" ↔ 300 ≤ q ∧ q < 500) ∧
  (segment_order q = "5. 500-1000 (V.Large)" ↔ 500 ≤ q ∧ q < 1000) ∧
  (segment_order q = "6. 1000+ (Enterprise)" ↔ 1000 ≤ q)

/-- The ends of a list are free of whitespace. -/
def NoWSEnds (l : List Char) : Prop :=
  (∀ c, l.head? = some c → isWS c = false) ∧ (∀ c, l.reverse.head? = some c → isWS c = false)

/-- Does the string contain an uppercase ASCII letter? -/
def hasKeyChar (s : String) : Bool := s.data.any (fun c => (lookupFirst c lowPairs).isSome)

theorem findColIdx_eq_none {n : String} : ∀ {l : List String}, n ∉ l → findColIdx n l = none := by
  intro l
  induction l with
  | nil => intro _; rfl
  | cons c cs ih =>
    intro h
    have hc : ¬ c = n := fun he => h (he ▸ List.mem_cons_self c cs)
    have hn : n ∉ cs := fun hm => h (List.mem_cons_of_mem c hm)
    simp [findColIdx, hc, ih hn]

/-- Membership in the output of `calculate_vendor_performance` comes from a
vendor group of the underlying groupby. -/
theorem vendor_mem (t : Table) (v : VendorRow) (hv : v ∈ calculate_vendor_performance t) :
    ∃ g ∈ groupby (fun a b => pyLe a b = true) (fun r : Row => r.vendors) t.rows,
      v = (let rev := (g.2.map (·.total_revenue)).sum
           let gm := (g.2.map (·.gm_1)).sum
           let avg := pround2 (fdiv rev g.2.length)
           let mp := pround2 (pmul (fdiv gm rev) 100)
           { vendors := g.1
             order_count := g.2.length
             total_revenue := rev
             gm_1 := gm
             commission_in_currency := (g.2.map (·.commission_in_currency)).sum
             refund_count := (g.2.filter (fun r => decide (0 < r.refund_amount))).length
             avg_revenue_per_order := if t.hasDeliveryStatus then fillna0 avg else avg
             margin_pct := if t.hasDeliveryStatus then fillna0 mp else mp
             late_deliveries :=
               if t.hasDeliveryStatus then
                 (g.2.filter (fun r => decide (r.delivery_status = some "red"))).length
               else 0 : VendorRow }) := by
  simp only [calculate_vendor_performance] at hv
  have h1 := List.take_subset 20 _ hv
  have h2 := (List.perm_insertionSort _ _).mem_iff.mp h1
  obtain ⟨g, hg, hme⟩ := List.mem_map.mp h2
  exact ⟨g, hg, hme.symm⟩

/-- C1 (amended): on an empty normalized table the two mean-derived metrics
of `calculate_overall_metrics` are NaN (pandas `mean()` of an empty series),
while the zero-guarded rate metrics of `calculate_operational_risk` are 0. -/
theorem c1_empty_table_metrics (t : Table) (h : t.rows = []) :
    (calculate_overall_metrics t).avg_revenue_per_order = PFloat.nan ∧
    (calculate_overall_metrics t).avg_gm1_per_order = PFloat.nan ∧
    (calculate_operational_risk t).refund_rate_pct = 0 ∧
    (calculate_operational_risk t).late_delivery_rate_pct = 0 := by
  refine ⟨?_, ?_, ?_, ?_⟩ <;> simp [calculate_overall_metrics, calculate_operational_risk,
    h, smean, fdiv]

/-- C1 counterexample: on the empty table `avg_revenue_per_order` is NaN,
not 0 as the claim states. -/
theorem c1_counterexample :
    (calculate_overall_metrics emptyTbl).avg_revenue_per_order ≠ PFloat.val 0 := by
  decide

/-- C1 witness: the amended statement evaluated at the empty table. -/
theorem c1_witness :
    emptyTbl.rows = [] ∧
    ((calculate_overall_metrics emptyTbl).avg_revenue_per_order = PFloat.nan ∧
     (calculate_overall_metrics emptyTbl).avg_gm1_per_order = PFloat.nan ∧
     (calculate_operational_risk emptyTbl).refund_rate_pct = 0 ∧
     (calculate_operational_risk emptyTbl).late_delivery_rate_pct = 0) :=
  ⟨rfl, c1_empty_table_metrics emptyTbl rfl⟩

/-- C3 (amended): for a vendor group with zero revenue sum, `margin_pct` is
NOT generally 0: it is +∞ or -∞ when the group's margin sum is nonzero, NaN
when the margin sum is also zero and the `delivery_status` column is absent,
and 0 only in the 0/0 case with the column present (where the whole-frame
`.fillna(0)` after the late-deliveries merge replaces the NaN). -/
theorem c3_zero_revenue_margin (t : Table) (v : VendorRow)
    (hv : v ∈ calculate_vendor_performance t) (h0 : v.total_revenue = 0) :
    v.margin_pct = if v.gm_1 = 0 then
        (if t.hasDeliveryStatus then PFloat.val 0 else PFloat.nan)
      else PFloat.inf (decide (0 < v.gm_1)) := by
  obtain ⟨g, hg, rfl⟩ := vendor_mem t v hv
  simp only at h0 ⊢
  rw [h0]
  by_cases hgm : (g.2.map (·.gm_1)).sum = 0 <;>
    by_cases hds : t.hasDeliveryStatus <;>
      simp [fdiv, pmul, pround2, fillna0, hgm, hds]

/-- Evaluation of `calculate_vendor_performance` on the concrete
zero-revenue table. -/
theorem vendorTbl_eval : calculate_vendor_performance vendorTbl = [vendorRow0] := by
  norm_num [calculate_vendor_performance, groupby, vendorTbl, baseRow, vendorRow0,
    fdiv, pmul, pround2, fillna0, smean, round2, pyLe, strLtB, charLtB, round_eq]

/-- C3 counterexample: a vendor group with revenue sum 0 and margin sum 5
gets `margin_pct` +∞, not 0. -/
theorem c3_counterexample :
    vendorRow0 ∈ calculate_vendor_performance vendorTbl ∧
    vendorRow0.total_revenue = 0 ∧ vendorRow0.margin_pct ≠ PFloat.val 0 := by
  rw [vendorTbl_eval]
  refine ⟨List.mem_singleton.mpr rfl, rfl, by simp [vendorRow0]⟩

/-- C3 witness: the amended statement evaluated on the concrete
zero-revenue vendor table. -/
theorem c3_witness :
    vendorRow0 ∈ calculate_vendor_performance vendorTbl ∧
    vendorRow0.margin_pct = (if vendorRow0.gm_1 = 0 then
        (if vendorTbl.hasDeliveryStatus then PFloat.val 0 else PFloat.nan)
      else PFloat.inf (decide (0 < vendorRow0.gm_1))) :=
  ⟨by rw [vendorTbl_eval]; exact List.mem_singleton.mpr rfl,
   c3_zero_revenue_margin vendorTbl vendorRow0
     (by rw [vendorTbl_eval]; exact List.mem_singleton.mpr rfl) rfl⟩

/-- C4 (amended): `calculate_order_size_segments` DOES mutate the caller's
shared DataFrame - it assigns the derived `order_segment` column onto it in
place - but that is the only change: the canonical rows are untouched and,
when the column was not already present, the post-state is exactly the input
plus the appended derived column; the returned segment table is the pure
grouping of the rows. -/
theorem c4_order_segment_mutation (d : DfObj)
    (h : (d.extra.map Prod.fst).contains "order_segment" = false) :
    (run_order_size_segments d).2.rows = d.rows ∧
    (run_order_size_segments d).2.extra
      = d.extra ++ [("order_segment", d.rows.map (fun r => segment_order r.total_revenue))] ∧
    (run_order_size_segments d).1 = calculate_order_size_segments d.rows := by
  unfold run_order_size_segments setCol
  rw [h]
  simp

/-- C4 counterexample: after `calculate_order_size_segments` runs, the
caller's DataFrame differs from what it was before the call (it gained the
`order_segment` column), refuting the no-mutation claim. -/
theorem c4_counterexample : (run_order_size_segments dfShared).2 ≠ dfShared := by
  intro he
  have h2 := congrArg (fun d => d.extra) he
  simp [run_order_size_segments, setCol, dfShared] at h2

/-- C4 witness: the amended statement evaluated on a concrete DataFrame. -/
theorem c4_witness :
    (dfShared.extra.map Prod.fst).contains "order_segment" = false ∧
    ((run_order_size_segments dfShared).2.rows = dfShared.rows ∧
     (run_order_size_segments dfShared).2.extra
       = dfShared.extra
         ++ [("order_segment", dfShared.rows.map (fun r => segment_order r.total_revenue))] ∧
     (run_order_size_segments dfShared).1 = calculate_order_size_segments dfShared.rows) :=
  ⟨rfl, c4_order_segment_mutation dfShared rfl⟩

/-- C9: with no `status` column the loader applies no row filter (every raw
row survives, only numerically coerced), and with no `delivery_status`
column `calculate_vendor_performance` sets `late_deliveries` uniformly to 0
and `calculate_operational_risk` reports 0 late and 0 on-time deliveries. -/
theorem c9_missing_columns (t : RawTable) (u : Table) :
    ("status" ∉ t.cols.map normalizeColName →
      (normalizeRaw t).rows = t.rows.map (coerceRow (t.cols.map normalizeColName))) ∧
    (u.hasDeliveryStatus = false →
      (∀ v ∈ calculate_vendor_performance u, v.late_deliveries = 0) ∧
      (calculate_operational_risk u).late_deliveries = 0 ∧
      (calculate_operational_risk u).on_time_deliveries = 0) := by
  constructor
  · intro h
    simp [normalizeRaw, statusFilterRows, findColIdx_eq_none h]
  · intro h
    refine ⟨?_, ?_, ?_⟩
    · intro v hv
      obtain ⟨g, hg, rfl⟩ := vendor_mem u v hv
      simp [h]
    · simp [calculate_operational_risk, h]
    · simp [calculate_operational_risk, h]

/-- C9 witness: both degraded behaviours evaluated on concrete tables that
lack the optional columns. -/
theorem c9_witness :
    (normalizeRaw exRawNoStatus).rows
      = exRawNoStatus.rows.map (coerceRow (exRawNoStatus.cols.map normalizeColName)) ∧
    ((∀ v ∈ calculate_vendor_performance noDsTbl, v.late_deliveries = 0) ∧
     (calculate_operational_risk noDsTbl).late_deliveries = 0 ∧
     (calculate_operational_risk noDsTbl).on_time_deliveries = 0) :=
  ⟨(c9_missing_columns exRawNoStatus noDsTbl).1 (by decide),
   (c9_missing_columns exRawNoStatus noDsTbl).2 rfl⟩

/-- C10: the status filter keeps a raw row if and only if its status cell is
not exactly the string `cancelled` or `rejected` - null cells and any other
value (including other casings) are retained. -/
theorem c10_status_filter (t : RawTable) (r : List Cell) (hr : r ∈ t.rows) :
    r ∈ statusFilterRows (t.cols.map normalizeColName) t.rows ↔
    ¬ (statusCell (t.cols.map normalizeColName) r = Cell.str "cancelled" ∨
       statusCell (t.cols.map normalizeColName) r = Cell.str "rejected") := by
  cases hidx : findColIdx "status" (t.cols.map normalizeColName) with
  | none => simp [statusFilterRows, statusCell, hidx, hr]
  | some i =>
    simp only [statusFilterRows, statusCell, hidx, List.mem_filter, hr, true_and]
    cases hc : r.getD i Cell.null <;> simp [cellIn]

/-- C10 witness: the filter characterization evaluated on a concrete raw
table whose only row has status `ok` (retained). -/
theorem c10_witness :
    Cell.str "ok" :: [] ∈ statusFilterRows (exRawOk.cols.map normalizeColName) exRawOk.rows ↔
    ¬ (statusCell (exRawOk.cols.map normalizeColName) (Cell.str "ok" :: []) = Cell.str "cancelled" ∨
       statusCell (exRawOk.cols.map normalizeColName) (Cell.str "ok" :: []) = Cell.str "rejected") :=
  c10_status_filter exRawOk (Cell.str "ok" :: []) (by decide)

theorem charLtB_iff {a b : Char} : charLtB a b = true ↔ a < b := by
  simp only [charLtB, decide_eq_true_eq]
  exact Iff.rfl

theorem charLtB_irrefl (a : Char) : charLtB a a = false := by
  rw [Bool.eq_false_iff]
  exact fun h => lt_irrefl a (charLtB_iff.mp h)

theorem charLtB_eq_of {a b : Char} (h1 : charLtB a b = false) (h2 : charLtB b a = false) :
    a = b := by
  rw [Bool.eq_false_iff, Ne, charLtB_iff, not_lt] at h1 h2
  exact le_antisymm h2 h1

theorem strLtB_irrefl : ∀ l, strLtB l l = false
  | [] => rfl
  | x :: xs => by
    simp only [strLtB, charLtB_irrefl x, if_false]
    exact strLtB_irrefl xs

theorem strLtB_asymm : ∀ {l m}, strLtB l m = true → strLtB m l = false
  | [], [], h => by simp [strLtB] at h
  | [], _ :: _, _ => rfl
  | _ :: _, [], h => by simp [strLtB] at h
  | x :: xs, y :: ys, h => by
    by_cases hxy : charLtB x y = true
    · have hyx : charLtB y x = false := by
        rw [Bool.eq_false_iff, Ne, charLtB_iff]
        exact lt_asymm (charLtB_iff.mp hxy)
      simp [strLtB, hxy, hyx]
    · rw [Bool.not_eq_true] at hxy
      by_cases hyx : charLtB y x = true
      · simp [strLtB, hxy, hyx] at h
      · rw [Bool.not_eq_true] at hyx
        simp only [strLtB, hxy, hyx, if_false] at h ⊢
        exact strLtB_asymm h

theorem strLtB_trans : ∀ {l m n}, strLtB l m = true → strLtB m n = true → strLtB l n = true
  | [], [], _, h1, _ => by simp [strLtB] at h1
  | [], _ :: _, [], _, h2 => by simp [strLtB] at h2
  | [], _ :: _, _ :: _, _, _ => rfl
  | _ :: _, [], _, h1, _ => by simp [strLtB] at h1
  | _ :: _, _ :: _, [], _, h2 => by simp [strLtB] at h2
  | x :: xs, y :: ys, z :: zs, h1, h2 => by
    by_cases hxy : charLtB x y = true
    · by_cases hyz : charLtB y z = true
      · have hxz : charLtB x z = true :=
          charLtB_iff.mpr (lt_trans (charLtB_iff.mp hxy) (charLtB_iff.mp hyz))
        simp [strLtB, hxz]
      · rw [Bool.not_eq_true] at hyz
        by_cases hzy : charLtB z y = true
        · simp [strLtB, hyz, hzy] at h2
        · rw [Bool.not_eq_true] at hzy
          have : y = z := charLtB_eq_of hyz hzy
          subst this
          simp [strLtB, hxy]
    · rw [Bool.not_eq_true] at hxy
      by_cases hyx : charLtB y x = true
      · simp [strLtB, hxy, hyx] at h1
      · rw [Bool.not_eq_true] at hyx
        have hexy : x = y := charLtB_eq_of hxy hyx
        subst hexy
        simp only [strLtB, hxy, hyx, if_false] at h1
        by_cases hyz : charLtB x z = true
        · simp [strLtB, hyz]
        · rw [Bool.not_eq_true] at hyz
          by_cases hzy : charLtB z x = true
          · simp [strLtB, hyz, hzy] at h2
          · rw [Bool.not_eq_true] at hzy
            simp only [strLtB, hyz, hzy, if_false] at h2 ⊢
            exact strLtB_trans h1 h2

theorem strLtB_eq_of : ∀ {l m}, strLtB l m = false → strLtB m l = false → l = m
  | [], [], _, _ => rfl
  | [], _ :: _, h1, _ => by simp [strLtB] at h1
  | _ :: _, [], _, h2 => by simp [strLtB] at h2
  | x :: xs, y :: ys, h1, h2 => by
    by_cases hxy : charLtB x y = true
    · simp [strLtB, hxy] at h1
    · rw [Bool.not_eq_true] at hxy
      by_cases hyx : charLtB y x = true
      · simp [strLtB, hyx] at h2
      · rw [Bool.not_eq_true] at hyx
        have he : x = y := charLtB_eq_of hxy hyx
        subst he
        simp only [strLtB, hxy, hyx, if_false] at h1 h2
        rw [strLtB_eq_of h1 h2]

theorem map_self {α : Type} (f : α → α) (h : ∀ x, f x = x) : ∀ l : List α, l.map f = l := by
  intro l
  induction l with
  | nil => rfl
  | cons a l ih => simp only [List.map_cons, h, ih]

instance : IsTotal String (fun a b => pyLe a b = true) := by
  constructor
  intro a b
  by_cases h : strLtB b.data a.data = true
  · right
    simp [pyLe, strLtB_asymm h]
  · left
    simp only [pyLe, Bool.not_eq_true] at h ⊢
    simp [h]

instance : IsTrans String (fun a b => pyLe a b = true) := by
  constructor
  intro a b c h1 h2
  simp only [pyLe, Bool.not_eq_true', Bool.not_eq_true] at h1 h2 ⊢
  by_cases hab : strLtB a.data b.data = true
  · by_cases hca : strLtB c.data a.data = true
    · exact absurd (strLtB_trans hca hab) (by simp [h2])
    · rwa [Bool.not_eq_true] at hca
  · rw [Bool.not_eq_true] at hab
    have : a.data = b.data := strLtB_eq_of hab h1
    rw [← this] at h2
    exact h2

/-- C2 (amended): the rows of `calculate_repeat_behavior` ARE ordered by the
lexical (code-point) order of the segment label strings, but that lexical
order does NOT coincide with the severity order: sorting the five labels
lexically yields one-time, high, low, very-high, medium, because the numeric
prefix `11-20` compares below `2-5` as a string. -/
theorem c2_repeat_output_sorted (t : Table) :
    ((calculate_repeat_behavior t).map (fun r => r.segment)).Sorted
      (fun a b => pyLe a b = true) ∧
    List.insertionSort (fun a b => pyLe a b = true)
        ["1 - One-time", "2-5 - Low Repeat", "6-10 - Medium Repeat",
         "11-20 - High Repeat", "21+ - Very High Repeat"]
      = ["1 - One-time", "11-20 - High Repeat", "2-5 - Low Repeat",
         "21+ - Very High Repeat", "6-10 - Medium Repeat"] := by
  constructor
  · have h : (calculate_repeat_behavior t).map (fun r => r.segment)
        = List.insertionSort (fun a b => pyLe a b = true)
            ((customerOrders t).map (fun c => segment_customer c.order_count)).dedup := by
      simp only [calculate_repeat_behavior, groupby, List.map_map]
      exact map_self _ (fun k => rfl) _
    rw [h]
    exact List.sorted_insertionSort _ _
  · decide

/-- C2 counterexample: on a table with one low-repeat (2 orders) and one
high-repeat (11 orders) customer, the output lists the high-repeat segment
first, so the output order does not respect the severity order. -/
theorem c2_counterexample :
    ((calculate_repeat_behavior repeatTbl).map (fun r => r.segment))
      = ["11-20 - High Repeat", "2-5 - Low Repeat"] ∧
    ¬ ((calculate_repeat_behavior repeatTbl).map (fun r => r.segment)).Sorted
        (fun a b => severityRank a ≤ severityRank b) := by
  have h : ((calculate_repeat_behavior repeatTbl).map (fun r => r.segment))
      = ["11-20 - High Repeat", "2-5 - Low Repeat"] := by
    decide
  refine ⟨h, ?_⟩
  rw [h]
  simp [List.sorted_cons, severityRank]

theorem sum_map_one {α : Type} : ∀ xs : List α, (xs.map (fun _ => (1 : ℕ))).sum = xs.length
  | [] => rfl
  | x :: xs => by simp [sum_map_one xs, Nat.add_comm]

theorem sum_filter_add {α M : Type} [AddCommMonoid M] (p : α → Bool) (f : α → M) :
    ∀ xs : List α,
      ((xs.filter p).map f).sum + ((xs.filter (fun x => !(p x))).map f).sum = (xs.map f).sum
  | [] => by simp
  | x :: xs => by
    cases hp : p x <;>
      simp only [List.filter_cons, hp, Bool.not_true, Bool.not_false, if_true, if_false,
        List.map_cons, List.sum_cons, ite_true, ite_false] <;>
      rw [← sum_filter_add p f xs] <;>
      abel_nf

theorem groups_sum {α κ M : Type} [DecidableEq κ] [AddCommMonoid M] (key : α → κ) (f : α → M) :
    ∀ (ks : List κ) (xs : List α), ks.Nodup → (∀ x ∈ xs, key x ∈ ks) →
      (ks.map (fun k => ((xs.filter (fun x => decide (key x = k))).map f).sum)).sum
        = (xs.map f).sum := by
  intro ks
  induction ks with
  | nil =>
    intro xs _ hc
    cases xs with
    | nil => rfl
    | cons x xs => exact absurd (hc x (List.mem_cons_self x xs)) (List.not_mem_nil _)
  | cons k ks ih =>
    intro xs hnd hc
    have hk : k ∉ ks := (List.nodup_cons.mp hnd).1
    have hnd2 : ks.Nodup := (List.nodup_cons.mp hnd).2
    have hrest : ks.map (fun kp => ((xs.filter (fun x => decide (key x = kp))).map f).sum)
        = ks.map (fun kp =>
            (((xs.filter (fun x => !(decide (key x = k)))).filter
                (fun x => decide (key x = kp))).map f).sum) := by
      refine List.map_congr_left (fun kp hkp => ?_)
      rw [List.filter_filter]
      congr 1
      congr 1
      refine List.filter_congr (fun x _ => ?_)
      cases hxk : decide (key x = kp) with
      | false => simp
      | true =>
        have : key x = kp := of_decide_eq_true hxk
        have hne : ¬ key x = k := fun he => hk (by rw [← this, he] at hkp; exact hkp)
        simp [hne]
    have hcs : ∀ x ∈ xs.filter (fun x => !(decide (key x = k))), key x ∈ ks := by
      intro x hx
      have hmem := List.mem_filter.mp hx
      have hxk : ¬ key x = k := by
        have := hmem.2
        simp only [Bool.not_eq_true'] at this
        exact of_decide_eq_false this
      rcases List.mem_cons.mp (hc x hmem.1) with h | h
      · exact absurd h hxk
      · exact h
    calc (List.map (fun kp => ((xs.filter (fun x => decide (key x = kp))).map f).sum) (k :: ks)).sum
        = ((xs.filter (fun x => decide (key x = k))).map f).sum
            + (ks.map (fun kp => ((xs.filter (fun x => decide (key x = kp))).map f).sum)).sum := by
          simp
      _ = ((xs.filter (fun x => decide (key x = k))).map f).sum
            + ((xs.filter (fun x => !(decide (key x = k)))).map f).sum := by
          rw [hrest, ih _ hnd2 hcs]
      _ = (xs.map f).sum := sum_filter_add _ f xs

theorem groupby_sum {α κ M : Type} [DecidableEq κ] [AddCommMonoid M]
    (r : κ → κ → Prop) [DecidableRel r] (key : α → κ) (f : α → M) (xs : List α) :
    ((groupby r key xs).map (fun g => (g.2.map f).sum)).sum = (xs.map f).sum := by
  unfold groupby
  rw [List.map_map]
  have hnd : (List.insertionSort r (xs.map key).dedup).Nodup :=
    ((List.perm_insertionSort r _).nodup_iff).mpr (List.nodup_dedup _)
  have hcc : ∀ x ∈ xs, key x ∈ List.insertionSort r (xs.map key).dedup := fun x hx =>
    ((List.perm_insertionSort r _).mem_iff).mpr (List.mem_dedup.mpr (List.mem_map_of_mem key hx))
  exact groups_sum key f _ xs hnd hcc

theorem groupby_count {α κ : Type} [DecidableEq κ]
    (r : κ → κ → Prop) [DecidableRel r] (key : α → κ) (xs : List α) :
    ((groupby r key xs).map (fun g => g.2.length)).sum = xs.length := by
  have h := groupby_sum r key (fun _ => (1 : ℕ)) xs
  rw [sum_map_one] at h
  rw [← h]
  congr 1
  exact List.map_congr_left (fun g _ => (sum_map_one g.2).symm)

/-- C6: the five repeat-behavior bins partition the positive integers - for
every order count `n ≥ 1` the assigned label characterizes exactly one of
the claimed ranges - and the `customer_count` column of
`calculate_repeat_behavior` sums to `unique_customers` of
`calculate_overall_metrics`. -/
theorem c6_repeat_bins_partition (t : Table) (n : ℕ) (hn : 1 ≤ n) :
    RepeatBinsPartition n ∧
    ((calculate_repeat_behavior t).map (fun r => r.customer_count)).sum
      = (calculate_overall_metrics t).unique_customers := by
  constructor
  · unfold RepeatBinsPartition segment_customer
    split_ifs with h1 h2 h3 h4 <;>
      refine ⟨?_, ?_, ?_, ?_, ?_⟩ <;>
      constructor <;>
      intro h <;>
      first
        | rfl
        | omega
        | exact absurd h (by decide)
        | exact ⟨by omega, by omega⟩
        | (exfalso; omega)
  · have h1 : ((calculate_repeat_behavior t).map (fun r => r.customer_count))
        = (groupby (fun a b => pyLe a b = true)
            (fun c : CustRow => segment_customer c.order_count) (customerOrders t)).map
              (fun g => g.2.length) := by
      simp only [calculate_repeat_behavior, List.map_map]
      rfl
    rw [h1, groupby_count]
    simp only [customerOrders, calculate_overall_metrics, List.length_map, groupby]
    exact (List.perm_insertionSort _ _).length_eq

/-- C6 witness: the partition property and customer-count identity evaluated
at order count 2 and the two-customer example table. -/
theorem c6_witness :
    RepeatBinsPartition 2 ∧
    ((calculate_repeat_behavior repeatTbl).map (fun r => r.customer_count)).sum
      = (calculate_overall_metrics repeatTbl).unique_customers :=
  c6_repeat_bins_partition repeatTbl 2 (by norm_num)

/-- C7: the six order-size bins with strict upper bounds partition the
non-negative revenues - for every revenue `q ≥ 0` the assigned label
characterizes exactly one of the claimed intervals - and the `order_count`
column of `calculate_order_size_segments` sums to `total_orders` of
`calculate_overall_metrics`. -/
theorem c7_order_bins_partition (t : Table) (q : ℚ) (hq : 0 ≤ q) :
    OrderBinsPartition q ∧
    ((calculate_order_size_segments t.rows).map (fun r => r.order_count)).sum
      = (calculate_overall_metrics t).total_orders := by
  constructor
  · unfold OrderBinsPartition segment_order
    split_ifs with h1 h2 h3 h4 h5 <;>
      refine ⟨?_, ?_, ?_, ?_, ?_, ?_⟩ <;>
      constructor <;>
      intro h <;>
      first
        | rfl
        | linarith
        | exact absurd h (by decide)
        | exact ⟨by linarith, by linarith⟩
        | (exfalso; obtain ⟨ha, hb⟩ := h; linarith)
        | (exfalso; linarith [h])
  · have hp : ((calculate_order_size_segments t.rows).map (fun r => r.order_count)).sum
        = ((orderSizeBody t.rows).map (fun r => r.order_count)).sum :=
      ((List.perm_insertionSort _ _).map (fun r : SegRow => r.order_count)).sum_eq
    rw [hp]
    have h1 : ((orderSizeBody t.rows).map (fun r => r.order_count))
        = (groupby (fun a b => pyLe a b = true)
            (fun r : Row => segment_order r.total_revenue) t.rows).map
              (fun g => g.2.length) := by
      simp only [orderSizeBody, List.map_map]
      rfl
    rw [h1, groupby_count]
    rfl

/-- C7 witness: the partition property and order-count identity evaluated at
revenue 75 and the three-order example table. -/
theorem c7_witness :
    OrderBinsPartition 75 ∧
    ((calculate_order_size_segments concTbl.rows).map (fun r => r.order_count)).sum
      = (calculate_overall_metrics concTbl).total_orders :=
  c7_order_bins_partition concTbl 75 (by norm_num)

theorem sum_map_sub {κ : Type} (f g : κ → ℚ) :
    ∀ l : List κ, (l.map (fun k => f k - g k)).sum = (l.map f).sum - (l.map g).sum
  | [] => by simp
  | k :: l => by
    simp only [List.map_cons, List.sum_cons, sum_map_sub f g l]
    ring

theorem abs_sum_le {κ : Type} (f : κ → ℚ) :
    ∀ l : List κ, |(l.map f).sum| ≤ (l.map (fun k => |f k|)).sum
  | [] => by simp
  | k :: l => by
    simp only [List.map_cons, List.sum_cons]
    exact le_trans (abs_add _ _) (add_le_add_left (abs_sum_le f l) _)

theorem sum_le_card {κ : Type} (f : κ → ℚ) (c : ℚ) :
    ∀ l : List κ, (∀ k ∈ l, f k ≤ c) → (l.map f).sum ≤ (l.length : ℚ) * c
  | [], _ => by simp
  | k :: l, h => by
    simp only [List.map_cons, List.sum_cons, List.length_cons]
    have h1 := h k (List.mem_cons_self k l)
    have h2 := sum_le_card f c l (fun x hx => h x (List.mem_cons_of_mem k hx))
    push_cast
    calc f k + (l.map f).sum ≤ c + (l.length : ℚ) * c := add_le_add h1 h2
      _ = ((l.length : ℚ) + 1) * c := by ring

/-- The rounding error of `.round(2)` is at most half of the last kept
decimal place. -/
theorem round2_err (x : ℚ) : |round2 x - x| ≤ 1 / 200 := by
  have h := abs_sub_round (x * 100)
  rw [abs_sub_comm] at h
  have he : round2 x - x = (((round (x * 100) : ℤ) : ℚ) - x * 100) / 100 := by
    rw [round2]; ring
  rw [he, abs_div]
  have h100 : |(100 : ℚ)| = 100 := by norm_num
  rw [h100]
  calc |((round (x * 100) : ℤ) : ℚ) - x * 100| / 100 ≤ (1 / 2) / 100 := by
        exact (div_le_div_iff_of_pos_right (by norm_num)).mpr h
    _ = 1 / 200 := by norm_num

/-- C5: over all `(company, customerid, customer)` groups (before the top-20
truncation) the rounded revenue percentages of
`calculate_customer_concentration` are finite values summing to 100 up to
the accumulated per-group rounding tolerance of half an ULP (1/200 each). -/
theorem c5_concentration_pct_sum (t : Table) (h : grandTotal t ≠ 0) :
    ∃ ps : List ℚ,
      (concentrationRows t).map (fun r => r.pct_of_total_revenue) = ps.map PFloat.val ∧
      |ps.sum - 100| ≤ ((concentrationRows t).length : ℚ) / 200 := by
  refine ⟨(List.insertionSort (fun a b => key3Le a b = true) ((t.rows.map concKey).dedup)).map
    (fun k => round2
      (((t.rows.filter (fun x => decide (concKey x = k))).map (fun x => x.total_revenue)).sum
        / grandTotal t * 100)), ?_, ?_⟩
  · have hrows : (concentrationRows t).map (fun r => r.pct_of_total_revenue)
        = (List.insertionSort (fun a b => key3Le a b = true) ((t.rows.map concKey).dedup)).map
            (fun k => pround2 (pmul (fdiv
              (((t.rows.filter (fun x => decide (concKey x = k))).map
                (fun x => x.total_revenue)).sum) (grandTotal t)) 100)) := by
      simp only [concentrationRows, groupby, List.map_map]
      rfl
    rw [hrows, List.map_map]
    refine List.map_congr_left (fun k _ => ?_)
    simp [fdiv, h, pmul, pround2]
  · have hAsum : ((List.insertionSort (fun a b => key3Le a b = true)
        ((t.rows.map concKey).dedup)).map (fun k =>
          ((t.rows.filter (fun x => decide (concKey x = k))).map
            (fun x => x.total_revenue)).sum)).sum = grandTotal t := by
      have hnd : (List.insertionSort (fun a b => key3Le a b = true)
          ((t.rows.map concKey).dedup)).Nodup :=
        ((List.perm_insertionSort _ _).nodup_iff).mpr (List.nodup_dedup _)
      have hcc : ∀ x ∈ t.rows, concKey x ∈ List.insertionSort (fun a b => key3Le a b = true)
          ((t.rows.map concKey).dedup) := fun x hx =>
        ((List.perm_insertionSort _ _).mem_iff).mpr
          (List.mem_dedup.mpr (List.mem_map_of_mem concKey hx))
      exact groups_sum concKey (fun x => x.total_revenue) _ t.rows hnd hcc
    have hexact : ((List.insertionSort (fun a b => key3Le a b = true)
        ((t.rows.map concKey).dedup)).map (fun k =>
          ((t.rows.filter (fun x => decide (concKey x = k))).map
            (fun x => x.total_revenue)).sum / grandTotal t * 100)).sum = 100 := by
      have hc : ∀ k ∈ List.insertionSort (fun a b => key3Le a b = true)
          ((t.rows.map concKey).dedup),
          ((t.rows.filter (fun x => decide (concKey x = k))).map
            (fun x => x.total_revenue)).sum / grandTotal t * 100
          = ((t.rows.filter (fun x => decide (concKey x = k))).map
            (fun x => x.total_revenue)).sum * (100 / grandTotal t) := by
        intro k _
        ring
      rw [List.map_congr_left hc, List.sum_map_mul_right, hAsum]
      field_simp
    have hsub : ((List.insertionSort (fun a b => key3Le a b = true)
        ((t.rows.map concKey).dedup)).map (fun k => round2
          (((t.rows.filter (fun x => decide (concKey x = k))).map
            (fun x => x.total_revenue)).sum / grandTotal t * 100))).sum - 100
        = ((List.insertionSort (fun a b => key3Le a b = true)
            ((t.rows.map concKey).dedup)).map (fun k =>
              round2 (((t.rows.filter (fun x => decide (concKey x = k))).map
                (fun x => x.total_revenue)).sum / grandTotal t * 100)
              - ((t.rows.filter (fun x => decide (concKey x = k))).map
                (fun x => x.total_revenue)).sum / grandTotal t * 100)).sum := by
      rw [sum_map_sub, hexact]
    rw [hsub]
    have hlen : (concentrationRows t).length
        = (List.insertionSort (fun a b => key3Le a b = true)
            ((t.rows.map concKey).dedup)).length := by
      simp [concentrationRows, groupby]
    rw [hlen]
    refine le_trans (abs_sum_le _ _) ?_
    have hb := sum_le_card (fun k =>
        |round2 (((t.rows.filter (fun x => decide (concKey x = k))).map
          (fun x => x.total_revenue)).sum / grandTotal t * 100)
          - ((t.rows.filter (fun x => decide (concKey x = k))).map
            (fun x => x.total_revenue)).sum / grandTotal t * 100|) (1 / 200)
      (List.insertionSort (fun a b => key3Le a b = true) ((t.rows.map concKey).dedup))
      (fun k _ => round2_err _)
    refine le_trans hb ?_
    rw [mul_one_div]

/-- C5 witness: the percentage-sum bound evaluated on the spec's worked
example table (grand total 1000). -/
theorem c5_witness :
    grandTotal concTbl ≠ 0 ∧
    (∃ ps : List ℚ,
      (concentrationRows concTbl).map (fun r => r.pct_of_total_revenue) = ps.map PFloat.val ∧
      |ps.sum - 100| ≤ ((concentrationRows concTbl).length : ℚ) / 200) :=
  ⟨by norm_num [grandTotal, concTbl, baseRow],
   c5_concentration_pct_sum concTbl (by norm_num [grandTotal, concTbl, baseRow])⟩

theorem map_self_mem {α : Type} (f : α → α) :
    ∀ l : List α, (∀ x ∈ l, f x = x) → l.map f = l
  | [], _ => rfl
  | a :: l, h => by
    rw [List.map_cons, h a (List.mem_cons_self a l),
      map_self_mem f l (fun x hx => h x (List.mem_cons_of_mem a hx))]

theorem lookupFirst_mem {β : Type} [DecidableEq β] {k v : β} :
    ∀ {l : List (β × β)}, lookupFirst k l = some v → (k, v) ∈ l := by
  intro l
  induction l with
  | nil => intro h; exact absurd h (by simp [lookupFirst])
  | cons p ps ih =>
    intro h
    by_cases hk : k = p.1
    · simp only [lookupFirst, if_pos hk] at h
      obtain rfl := Option.some.injEq _ _ ▸ h
      have : (k, p.2) = p := by rw [hk]
      rw [this]
      exact List.mem_cons_self p ps
    · simp only [lookupFirst, if_neg hk] at h
      exact List.mem_cons_of_mem p (ih h)

theorem lookupFirst_eq_none {β : Type} [DecidableEq β] {k : β} :
    ∀ {l : List (β × β)}, (∀ p ∈ l, k ≠ p.1) → lookupFirst k l = none := by
  intro l
  induction l with
  | nil => intro _; rfl
  | cons p ps ih =>
    intro h
    simp only [lookupFirst, if_neg (h p (List.mem_cons_self p ps))]
    exact ih (fun q hq => h q (List.mem_cons_of_mem p hq))

theorem lowPairs_snd : ∀ p ∈ lowPairs, lookupFirst p.2 lowPairs = none := by decide

theorem lowChar_idem (c : Char) : lowChar (lowChar c) = lowChar c := by
  cases hl : lookupFirst c lowPairs with
  | none => simp [lowChar, hl]
  | some v =>
    have hv := lowPairs_snd (c, v) (lookupFirst_mem hl)
    simp only [lowChar, hl, Option.getD_some]
    simp [hv]

theorem lowChar_not_key (c : Char) : lookupFirst (lowChar c) lowPairs = none := by
  cases hl : lookupFirst c lowPairs with
  | none => simpa [lowChar, hl] using hl
  | some v =>
    have hv := lowPairs_snd (c, v) (lookupFirst_mem hl)
    simpa [lowChar, hl] using hv

theorem mem_dropWhile {p : Char → Bool} : ∀ {l : List Char} {x : Char}, x ∈ l.dropWhile p → x ∈ l := by
  intro l
  induction l with
  | nil => intro x h; exact h
  | cons a l ih =>
    intro x h
    cases hpa : p a with
    | true =>
      rw [List.dropWhile_cons, if_pos (by rw [hpa])] at h
      exact List.mem_cons_of_mem a (ih h)
    | false =>
      rw [List.dropWhile_cons, if_neg (by rw [hpa]; exact Bool.false_ne_true)] at h
      exact h

theorem mem_stripChars {l : List Char} {x : Char} (h : x ∈ stripChars l) : x ∈ l := by
  unfold stripChars at h
  rw [List.mem_reverse] at h
  have h2 := mem_dropWhile h
  rw [List.mem_reverse] at h2
  exact mem_dropWhile h2

/-- Every character produced by the column-name cleanup is a non-space,
non-uppercase fixed point of the cleanup's character maps. -/
theorem cleanChars_chars {l : List Char} {x : Char} (h : x ∈ cleanChars l) :
    lookupFirst x lowPairs = none ∧ lowChar x = x ∧ ¬ x = ' ' := by
  unfold cleanChars at h
  obtain ⟨y, hy, rfl⟩ := List.mem_map.mp h
  have hy2 := mem_stripChars hy
  obtain ⟨c, _, rfl⟩ := List.mem_map.mp hy2
  by_cases hsp : lowChar c = ' '
  · rw [replChar, if_pos hsp]
    refine ⟨by decide, by decide, by decide⟩
  · rw [replChar, if_neg hsp]
    exact ⟨lowChar_not_key c, lowChar_idem c, hsp⟩

theorem dropWhile_head_not {p : Char → Bool} :
    ∀ {l : List Char} {c : Char}, (l.dropWhile p).head? = some c → p c = false := by
  intro l
  induction l with
  | nil => intro c h; exact absurd h (by simp)
  | cons a l ih =>
    intro c h
    cases hpa : p a with
    | true =>
      rw [List.dropWhile_cons, if_pos (by rw [hpa])] at h
      exact ih h
    | false =>
      rw [List.dropWhile_cons, if_neg (by rw [hpa]; exact Bool.false_ne_true)] at h
      obtain rfl : a = c := by simpa using h
      exact hpa

theorem dropWhile_eq_self {p : Char → Bool} {l : List Char}
    (h : ∀ c, l.head? = some c → p c = false) : l.dropWhile p = l := by
  cases l with
  | nil => rfl
  | cons a l =>
    have := h a rfl
    rw [List.dropWhile_cons, if_neg (by rw [this]; exact Bool.false_ne_true)]

theorem head?_append_left {l₁ l₂ : List Char} (h : l₁ ≠ []) : (l₁ ++ l₂).head? = l₁.head? := by
  cases l₁ with
  | nil => exact absurd rfl h
  | cons a l => rfl

theorem stripChars_noWS (m : List Char) : NoWSEnds (stripChars m) := by
  constructor
  · intro c hc
    have hq : m.dropWhile isWS
        = ((m.dropWhile isWS).reverse.dropWhile isWS).reverse
          ++ ((m.dropWhile isWS).reverse.takeWhile isWS).reverse := by
      rw [← List.reverse_append, List.takeWhile_append_dropWhile, List.reverse_reverse]
    have hne : ((m.dropWhile isWS).reverse.dropWhile isWS).reverse ≠ [] := by
      intro he
      rw [stripChars, he] at hc
      exact Option.noConfusion hc
    have hh : (m.dropWhile isWS).head? = some c := by
      rw [hq, head?_append_left hne]
      exact hc
    exact dropWhile_head_not hh
  · intro c hc
    rw [stripChars, List.reverse_reverse] at hc
    exact dropWhile_head_not hc

theorem stripChars_eq_self {l : List Char} (h : NoWSEnds l) : stripChars l = l := by
  unfold stripChars
  rw [dropWhile_eq_self h.1, dropWhile_eq_self h.2, List.reverse_reverse]

theorem head?_map {f : Char → Char} {l : List Char} : (l.map f).head? = l.head?.map f := by
  cases l <;> rfl

theorem isWS_replChar {c : Char} (h : isWS c = false) : replChar c = c := by
  have hne : ¬ c = ' ' := by
    intro he
    rw [he] at h
    exact absurd h (by decide)
  rw [replChar, if_neg hne]

theorem noWSEnds_map_replChar {l : List Char} (h : NoWSEnds l) : NoWSEnds (l.map replChar) := by
  constructor
  · intro c hc
    rw [head?_map] at hc
    cases hl : l.head? with
    | none => rw [hl] at hc; exact Option.noConfusion hc
    | some a =>
      rw [hl] at hc
      have ha := h.1 a hl
      obtain rfl : replChar a = c := by simpa using hc
      rw [isWS_replChar ha]
      exact ha
  · intro c hc
    rw [← List.map_reverse, head?_map] at hc
    cases hl : l.reverse.head? with
    | none => rw [hl] at hc; exact Option.noConfusion hc
    | some a =>
      rw [hl] at hc
      have ha := h.2 a hl
      obtain rfl : replChar a = c := by simpa using hc
      rw [isWS_replChar ha]
      exact ha

theorem replChar_idem (c : Char) : replChar (replChar c) = replChar c := by
  by_cases h : c = ' '
  · rw [h]
    decide
  · have h2 : replChar c = c := by rw [replChar, if_neg h]
    rw [h2, h2]

theorem cleanChars_idem (l : List Char) : cleanChars (cleanChars l) = cleanChars l := by
  have hfix_low : (cleanChars l).map lowChar = cleanChars l :=
    map_self_mem _ _ (fun x hx => (cleanChars_chars hx).2.1)
  have hnoWS : NoWSEnds (cleanChars l) := noWSEnds_map_replChar (stripChars_noWS _)
  have hfix_strip : stripChars (cleanChars l) = cleanChars l := stripChars_eq_self hnoWS
  have hfix_repl : (cleanChars l).map replChar = cleanChars l :=
    map_self_mem _ _ (fun x hx => by rw [replChar, if_neg (cleanChars_chars hx).2.2])
  calc cleanChars (cleanChars l)
      = (stripChars ((cleanChars l).map lowChar)).map replChar := rfl
    _ = (stripChars (cleanChars l)).map replChar := by rw [hfix_low]
    _ = (cleanChars l).map replChar := by rw [hfix_strip]
    _ = cleanChars l := hfix_repl

theorem cleanName_idem (s : String) : cleanName (cleanName s) = cleanName s := by
  unfold cleanName
  rw [cleanChars_idem]

theorem mapping_keys_upper : ∀ p ∈ column_mapping, hasKeyChar p.1 = true := by decide

theorem cleanName_no_upper (s : String) : hasKeyChar (cleanName s) = false := by
  rw [Bool.eq_false_iff]
  intro hcontra
  obtain ⟨x, hx, hp⟩ := List.any_eq_true.mp hcontra
  have := (cleanChars_chars hx).1
  rw [this] at hp
  exact absurd hp (by decide)

theorem applyMapping_clean (s : String) : applyMapping (cleanName s) = cleanName s := by
  unfold applyMapping
  rw [lookupFirst_eq_none, Option.getD_none]
  intro p hp he
  have h1 := cleanName_no_upper s
  rw [he] at h1
  rw [mapping_keys_upper p hp] at h1
  exact Bool.noConfusion h1

theorem normalizeColName_idem (s : String) :
    normalizeColName (normalizeColName s) = normalizeColName s := by
  unfold normalizeColName
  rw [applyMapping_clean, cleanName_idem]

theorem coerceCell_idem (c : Cell) : coerceCell (coerceCell c) = coerceCell c := by
  cases c <;> rfl

theorem coerceRow_cons (c : String) (cols : List String) (x : Cell) (r : List Cell) :
    coerceRow (c :: cols) (x :: r)
      = (if numeric_cols.contains c then coerceCell x else x) :: coerceRow cols r := rfl

theorem coerceRow_idem :
    ∀ (cols : List String) (r : List Cell), r.length = cols.length →
      coerceRow cols (coerceRow cols r) = coerceRow cols r
  | [], r, h => by
    have : r = [] := List.length_eq_zero.mp h
    rw [this]
    rfl
  | c :: cols, r, h => by
    cases r with
    | nil => simp at h
    | cons x r =>
      rw [List.length_cons, List.length_cons, Nat.succ_inj] at h
      rw [coerceRow_cons, coerceRow_cons, coerceRow_idem cols r h]
      cases hn : numeric_cols.contains c with
      | true => simp [coerceCell_idem]
      | false => simp

theorem coerceRow_getD :
    ∀ (cols : List String) (r : List Cell) (i : ℕ), r.length = cols.length →
      numeric_cols.contains (cols.getD i "") = false →
      (coerceRow cols r).getD i Cell.null = r.getD i Cell.null
  | [], r, i, h, _ => by
    have : r = [] := List.length_eq_zero.mp h
    rw [this]
    rfl
  | c :: cols, r, i, h, hc => by
    cases r with
    | nil => simp at h
    | cons x r =>
      rw [List.length_cons, List.length_cons, Nat.succ_inj] at h
      cases i with
      | zero =>
        have hcc : numeric_cols.contains c = false := hc
        rw [coerceRow_cons, if_neg (by rw [hcc]; exact Bool.false_ne_true)]
        rfl
      | succ i =>
        rw [coerceRow_cons]
        have hci : numeric_cols.contains (cols.getD i "") = false := hc
        exact coerceRow_getD cols r i h hci

theorem findColIdx_spec {n : String} :
    ∀ {l : List String} {i : ℕ}, findColIdx n l = some i → l.getD i "" = n := by
  intro l
  induction l with
  | nil => intro i h; exact absurd h (by simp [findColIdx])
  | cons c cs ih =>
    intro i h
    by_cases hc : c = n
    · rw [findColIdx, if_pos hc] at h
      obtain rfl : (0 : ℕ) = i := by simpa using h
      exact hc
    · rw [findColIdx, if_neg hc] at h
      obtain ⟨j, hj, rfl⟩ := Option.map_eq_some'.mp h
      exact ih hj

theorem statusFilterRows_subset (cols : List String) (rows : List (List Cell)) :
    ∀ r ∈ statusFilterRows cols rows, r ∈ rows := by
  unfold statusFilterRows
  cases findColIdx "status" cols with
  | none => exact fun r hr => hr
  | some i => exact fun r hr => (List.mem_filter.mp hr).1

theorem statusFilter_stable (cols : List String) (rows : List (List Cell))
    (hrect : ∀ r ∈ statusFilterRows cols rows, r.length = cols.length) :
    statusFilterRows cols ((statusFilterRows cols rows).map (coerceRow cols))
      = (statusFilterRows cols rows).map (coerceRow cols) := by
  unfold statusFilterRows
  unfold statusFilterRows at hrect
  cases hidx : findColIdx "status" cols with
  | none => rfl
  | some i =>
    rw [hidx] at hrect
    rw [List.filter_eq_self]
    intro r hr
    obtain ⟨r₀, hr₀, rfl⟩ := List.mem_map.mp hr
    have hmem := List.mem_filter.mp hr₀
    have hcol : cols.getD i "" = "status" := findColIdx_spec hidx
    have hnc : numeric_cols.contains (cols.getD i "") = false := by
      rw [hcol]
      decide
    rw [coerceRow_getD cols r₀ i (hrect r₀ hr₀) hnc]
    exact hmem.2

/-- C8: the loader's normalization steps (column renaming and name cleanup,
status filtering, numeric coercion) are idempotent on every rectangular raw
table: running them a second time changes nothing. -/
theorem c8_normalize_idempotent (t : RawTable)
    (hrect : ∀ r ∈ t.rows, r.length = t.cols.length) :
    normalizeRaw (normalizeRaw t) = normalizeRaw t := by
  unfold normalizeRaw
  dsimp only
  have hcols : (t.cols.map normalizeColName).map normalizeColName
      = t.cols.map normalizeColName := by
    rw [List.map_map]
    exact List.map_congr_left (fun s _ => normalizeColName_idem s)
  rw [hcols]
  have hrect1 : ∀ r ∈ statusFilterRows (t.cols.map normalizeColName) t.rows,
      r.length = (t.cols.map normalizeColName).length := by
    intro r hr
    rw [List.length_map]
    exact hrect r (statusFilterRows_subset _ _ r hr)
  rw [statusFilter_stable _ _ hrect1]
  rw [List.map_map]
  have hmm : (statusFilterRows (t.cols.map normalizeColName) t.rows).map
        (coerceRow (t.cols.map normalizeColName) ∘ coerceRow (t.cols.map normalizeColName))
      = (statusFilterRows (t.cols.map normalizeColName) t.rows).map
          (coerceRow (t.cols.map normalizeColName)) :=
    List.map_congr_left (fun r hr => coerceRow_idem _ r (hrect1 r hr))
  rw [hmm]

/-- C8 witness: idempotence evaluated on a concrete raw table with aliased
column names, a filtered `cancelled` row, string/null numeric cells and a
fallback-normalized column name. -/
theorem c8_witness : normalizeRaw (normalizeRaw exRaw) = normalizeRaw exRaw :=
  c8_normalize_idempotent exRaw (by decide)
